import Mathlib

/-!
Verification of the Photini thumbnail-grid / importer pane
(`src/photini/importer.py`, `src/photini/imagelist.py`).

The Python code is shallowly embedded: `datetime` timestamps become `Nat`
(with `0` standing for `datetime.min`, the smallest possible value), file
system queries (`os.path.isfile`, `os.path.exists`, ...) become `Bool`-valued
function parameters, GUI dialogs become explicit result parameters, and the
generator/consumer loop of `Importer.copy_selected` becomes a recursion that
mirrors the consumer's `break` semantics (a generator is never resumed after
the consumer breaks out of the `for` loop).
-/

/-! ## Importer: file records (`importer.py` `get_file_data` / `show_file_list`)

A file record as built by `FolderSource.get_file_data` /
`CameraSource.get_file_data` and completed by `Importer.show_file_list`
(which adds `dest_path = self.nm.transform(file_data)`).
-/

structure FileInfo where
  name : String
  path : String
  timestamp : Nat
  destPath : String
deriving DecidableEq, Repr

/-- The error message logged by `CameraSource.copy_files` on a
`gp.GPhoto2Error` (`logger.error(str(ex))`). -/
def cameraErrMsg : String := "GPhoto2Error"

/-- One resumption of the `FolderSource.copy_files` generator for file
`info`: if `os.path.isfile(info['path'])` fails it yields `None` (the line
has no `continue`, but the consumer breaks on `None`, so the generator is
never resumed and the following `shutil.copy2` is never reached); otherwise
it copies the file and yields `info`.  Nothing is logged in either case.
The second component is the list of messages logged during the step. -/
def folderCopyStep (isfile : String → Bool) (info : FileInfo) :
    Option FileInfo × List String :=
  if isfile info.path then (some info, []) else (none, [])

/-- One resumption of the `CameraSource.copy_files` generator for file
`info`: on a `gp.GPhoto2Error` from `camera.file_get`/`save` it logs
`str(ex)` and yields `None` (the consumer then breaks, so the unconditional
`yield info` that follows is never reached); otherwise it saves the file to
`dest_path` and yields `info`. -/
def cameraCopyStep (camOk : FileInfo → Bool) (info : FileInfo) :
    Option FileInfo × List String :=
  if camOk info then (some info, []) else (none, [cameraErrMsg])

/-- `Importer.abort_copy`: `return not (self.copy_button.isChecked() and
self.isVisible())`. -/
def abort_copy (checked visible : Bool) : Bool := !(checked && visible)

/-- State visible to the importer claims: the files copied by the current
`copy_selected` run, the destination paths handed to
`ImageList.open_file`, the messages logged, whether `Importer._fail` has
reset the source selector, and the `'last_transfer'` value of the config
store for the current source section (as a timestamp; the
isoformat/strptime round trip of the real config store is the identity on
timestamps and is not modelled). -/
structure ImportState where
  copied : List FileInfo
  opened : List String
  log : List String
  selectorReset : Bool
  lastTransfer : Option Nat
deriving DecidableEq, Repr

/-- The `if last_item[0]:` epilogue of `Importer.copy_selected`: when a
`last_item` was recorded, store its timestamp under `'last_transfer'`
(`done_opening` only touches the `'paths'` config and re-sorts thumbnails,
so it is not modelled). -/
def finalizeCopy (s : ImportState) (lastItem : Option String × Nat) : ImportState :=
  match lastItem.1 with
  | some _ => { s with lastTransfer := some lastItem.2 }
  | none => s

/-- The `for item in self.source.copy_files(copy_list):` loop body of
`Importer.copy_selected`.  `step` is one resumption of the source's
`copy_files` generator (the file is copied by the source *before* the item
is yielded), `polls` gives the successive results of `abort_copy` (poll
index `p` counts the calls made so far in this run).  On a `None` item the
loop calls `self._fail()` and breaks; after the item is copied the first
`abort_copy` poll may break before `open_file`, and a second poll may break
before `last_item` is updated. -/
def copyLoop (step : FileInfo → Option FileInfo × List String)
    (polls : Nat → Bool) :
    List FileInfo → Nat → ImportState → (Option String × Nat) → ImportState
  | [], _, s, lastItem => finalizeCopy s lastItem
  | info :: rest, p, s, lastItem =>
    let r := step info
    let s1 := { s with log := s.log ++ r.2 }
    match r.1 with
    | none => finalizeCopy { s1 with selectorReset := true } lastItem
    | some item =>
      let s2 := { s1 with copied := s1.copied ++ [item] }
      if polls p then finalizeCopy s2 lastItem
      else
        let s3 := { s2 with opened := s2.opened ++ [item.destPath] }
        if polls (p + 1) then finalizeCopy s3 lastItem
        else
          let lastItem' :=
            if lastItem.2 < item.timestamp then (some item.destPath, item.timestamp)
            else lastItem
          copyLoop step polls rest (p + 2) s3 lastItem'

/-- `Importer.copy_selected`, run on the list of selected file records, with
`last_item` initialised to `(None, datetime.min)`.  `lt` is the
`'last_transfer'` config value before the run. -/
def copy_selected (step : FileInfo → Option FileInfo × List String)
    (polls : Nat → Bool) (copyList : List FileInfo) (lt : Option Nat) :
    ImportState :=
  copyLoop step polls copyList 0 ⟨[], [], [], false, lt⟩ (none, 0)

/-- `Importer.list_files`: `self.source.get_file_data()` returning `None`
calls `self._fail()` (which resets the source selector) and returns without
touching the file list; otherwise `_new_file_list` installs the new data. -/
def list_files (getData : Option (List FileInfo))
    (fileData : List FileInfo) : List FileInfo × Bool :=
  match getData with
  | none => (fileData, true)
  | some fd => (fd, false)

/-! ## Importer: file selection (`show_file_list` / `select_files` / `select_new`) -/

/-- A row of the importer's file list widget: `Importer.show_file_list`
clears the `ItemIsSelectable` flag exactly when `os.path.exists(dest_path)`. -/
structure DisplayItem where
  info : FileInfo
  selectable : Bool
deriving DecidableEq, Repr

/-- `Importer.show_file_list`, restricted to what later operations read:
the rows in file-list order together with their selectable flag. -/
def mkDisplay (pathExists : String → Bool) (fileData : List FileInfo) :
    List DisplayItem :=
  fileData.map (fun f => ⟨f, !pathExists f.destPath⟩)

/-- `Importer.select_files(since)`: clear the selection, then select every
row that still has the `ItemIsSelectable` flag and whose timestamp is
strictly greater than `since`.  Returns the selected records in row order. -/
def select_files (since : Nat) (items : List DisplayItem) : List FileInfo :=
  (items.filter (fun it => it.selectable && decide (since < it.info.timestamp))).map
    (fun it => it.info)

/-- `Importer.select_new`: read `'last_transfer'` from the config store,
defaulting to `datetime.min`, and call `select_files` with it. -/
def select_new (lastTransfer : Option Nat) (items : List DisplayItem) :
    List FileInfo :=
  select_files (lastTransfer.getD 0) items

/-- The running maximum that `copy_selected` computes:
`max(datetime.min, max of the timestamps)`. -/
def maxTs (l : List FileInfo) : Nat :=
  l.foldl (fun a i => max a i.timestamp) 0

/-- A source `copy_files` step that always succeeds (every file readable). -/
def okStep : FileInfo → Option FileInfo × List String := fun i => (some i, [])

/-- `abort_copy` results when the user never stops the copy. -/
def noAbort : Nat → Bool := fun _ => false

/-- The `last_item` update performed for every item that passes both
`abort_copy` checks: `if last_item[1] < item['timestamp']: last_item =
item['dest_path'], item['timestamp']`. -/
def foldLI (li : Option String × Nat) (l : List FileInfo) : Option String × Nat :=
  l.foldl
    (fun acc i => if acc.2 < i.timestamp then (some i.destPath, i.timestamp) else acc)
    li

theorem foldLI_nil (li : Option String × Nat) : foldLI li [] = li := rfl

theorem foldLI_cons (li : Option String × Nat) (i : FileInfo) (l : List FileInfo) :
    foldLI li (i :: l) =
      foldLI (if li.2 < i.timestamp then (some i.destPath, i.timestamp) else li) l := rfl

theorem foldLI_snd (l : List FileInfo) :
    ∀ li : Option String × Nat,
      (foldLI li l).2 = l.foldl (fun a i => max a i.timestamp) li.2 := by
  induction l with
  | nil => intro li; rfl
  | cons i rest ih =>
    intro li
    rw [foldLI_cons, ih]
    by_cases h : li.2 < i.timestamp
    · simp [h, Nat.max_eq_right (Nat.le_of_lt h)]
    · simp [h, Nat.max_eq_left (Nat.le_of_not_lt h)]

theorem foldLI_fst_isSome_of_isSome (l : List FileInfo) :
    ∀ li : Option String × Nat, li.1.isSome → (foldLI li l).1.isSome := by
  induction l with
  | nil => intro li h; exact h
  | cons i rest ih =>
    intro li h
    rw [foldLI_cons]
    by_cases hc : li.2 < i.timestamp
    · simp only [hc, if_true]
      exact ih _ (by simp)
    · simp only [hc, if_false]
      exact ih _ h

theorem foldLI_fst_isSome (l : List FileInfo) :
    ∀ li : Option String × Nat, (∃ i ∈ l, li.2 < i.timestamp) →
      (foldLI li l).1.isSome := by
  induction l with
  | nil => intro li h; simp at h
  | cons i rest ih =>
    intro li h
    rw [foldLI_cons]
    by_cases hc : li.2 < i.timestamp
    · simp only [hc, if_true]
      exact foldLI_fst_isSome_of_isSome rest _ (by simp)
    · simp only [hc, if_false]
      rcases h with ⟨j, hj, hlt⟩
      rcases List.mem_cons.mp hj with rfl | hj'
      · exact absurd hlt hc
      · exact ih li ⟨j, hj', hlt⟩

theorem le_maxTs_of_mem {i : FileInfo} {l : List FileInfo} (h : i ∈ l) :
    i.timestamp ≤ maxTs l := by
  have key : ∀ (l : List FileInfo) (a : Nat), i ∈ l →
      i.timestamp ≤ l.foldl (fun a i => max a i.timestamp) a := by
    intro l
    induction l with
    | nil => intro a h; simp at h
    | cons j rest ih =>
      intro a hmem
      rcases List.mem_cons.mp hmem with rfl | h'
      · have : ∀ (rest : List FileInfo) (b : Nat), b ≤
            rest.foldl (fun a i => max a i.timestamp) b := by
          intro rest
          induction rest with
          | nil => intro b; exact Nat.le_refl b
          | cons k r ihr =>
            intro b
            exact Nat.le_trans (Nat.le_max_left b k.timestamp) (ihr _)
        exact Nat.le_trans (Nat.le_max_right a i.timestamp) (this rest _)
      · exact ih _ h'
  exact key l 0 h

/-- When the user never aborts, `copy_selected`'s loop copies and opens the
whole list (given a step that can still fail; this version is for steps that
yield every item unchanged and log nothing). -/
theorem copyLoop_ok (l : List FileInfo) :
    ∀ (p : Nat) (s : ImportState) (li : Option String × Nat),
      copyLoop okStep noAbort l p s li =
        finalizeCopy
          { s with copied := s.copied ++ l,
                   opened := s.opened ++ l.map (fun i => i.destPath) }
          (foldLI li l) := by
  induction l with
  | nil => intro p s li; simp [copyLoop, foldLI]
  | cons i rest ih =>
    intro p s li
    rw [copyLoop]
    simp only [okStep, noAbort, List.append_nil, if_false, Bool.false_eq_true]
    rw [ih]
    rw [foldLI_cons]
    congr 1
    simp

/-- A run whose source step fails (yields `None`) at `bad`: the successful
prefix is copied and opened, `_fail` resets the selector, the failing
step's log messages are appended, and nothing after `bad` is touched. -/
theorem copyLoop_fail (step : FileInfo → Option FileInfo × List String)
    (pre : List FileInfo) (bad : FileInfo) (post : List FileInfo)
    (hpre : ∀ i ∈ pre, step i = (some i, []))
    (hbad : (step bad).1 = none) :
    ∀ (p : Nat) (s : ImportState) (li : Option String × Nat),
      copyLoop step noAbort (pre ++ bad :: post) p s li =
        finalizeCopy
          { s with copied := s.copied ++ pre,
                   opened := s.opened ++ pre.map (fun i => i.destPath),
                   log := s.log ++ (step bad).2,
                   selectorReset := true }
          (foldLI li pre) := by
  induction pre with
  | nil =>
    intro p s li
    simp only [List.nil_append]
    rw [copyLoop]
    rcases hstep : step bad with ⟨res, lg⟩
    rw [hstep] at hbad
    simp only at hbad
    subst hbad
    simp [foldLI]
  | cons i rest ih =>
    intro p s li
    have hi : step i = (some i, []) := hpre i (List.mem_cons_self i rest)
    simp only [List.cons_append]
    rw [copyLoop, hi]
    simp only [noAbort, List.append_nil, if_false, Bool.false_eq_true]
    rw [ih (fun j hj => hpre j (List.mem_cons_of_mem i hj))]
    rw [foldLI_cons]
    congr 1
    simp

theorem finalizeCopy_copied (s : ImportState) (li : Option String × Nat) :
    (finalizeCopy s li).copied = s.copied := by
  rcases li with ⟨o, t⟩; cases o <;> rfl

theorem finalizeCopy_opened (s : ImportState) (li : Option String × Nat) :
    (finalizeCopy s li).opened = s.opened := by
  rcases li with ⟨o, t⟩; cases o <;> rfl

theorem finalizeCopy_log (s : ImportState) (li : Option String × Nat) :
    (finalizeCopy s li).log = s.log := by
  rcases li with ⟨o, t⟩; cases o <;> rfl

theorem finalizeCopy_selectorReset (s : ImportState) (li : Option String × Nat) :
    (finalizeCopy s li).selectorReset = s.selectorReset := by
  rcases li with ⟨o, t⟩; cases o <;> rfl

/-- Membership in the result of `select_new` over the displayed file list. -/
theorem mem_select_new (lt : Option Nat) (pathExists : String → Bool)
    (fileData : List FileInfo) (f : FileInfo) :
    f ∈ select_new lt (mkDisplay pathExists fileData) ↔
      f ∈ fileData ∧ pathExists f.destPath = false ∧ lt.getD 0 < f.timestamp := by
  unfold select_new select_files mkDisplay
  constructor
  · intro h
    rcases List.mem_map.mp h with ⟨it, hit, rfl⟩
    rcases List.mem_filter.mp hit with ⟨hmem, hflag⟩
    rcases List.mem_map.mp hmem with ⟨g, hg, rfl⟩
    simp only [Bool.and_eq_true, Bool.not_eq_true', decide_eq_true_eq] at hflag
    exact ⟨hg, hflag.1, hflag.2⟩
  · rintro ⟨hg, hne, hts⟩
    refine List.mem_map.mpr ⟨⟨f, !pathExists f.destPath⟩, ?_, rfl⟩
    refine List.mem_filter.mpr ⟨List.mem_map.mpr ⟨f, hg, rfl⟩, ?_⟩
    simp [hne, hts]

/-- Sample file records used by concrete witnesses and counterexamples. -/
def fA : FileInfo :=
  ⟨"IMG_0001.JPG", "/src/IMG_0001.JPG", 0, "/dest/IMG_0001.JPG"⟩

def fB : FileInfo :=
  ⟨"IMG_0002.JPG", "/src/IMG_0002.JPG", 5, "/dest/IMG_0002.JPG"⟩

def fC : FileInfo :=
  ⟨"IMG_0003.JPG", "/src/IMG_0003.JPG", 9, "/dest/IMG_0003.JPG"⟩

/-- C1, counterexample to the claim as stated: a run of
`Importer.copy_selected` that successfully copies one file whose timestamp
equals `datetime.min` (modelled as `0`) stores nothing under
`'last_transfer'`, because `last_item[1] < item['timestamp']` is false for
`datetime.min`, so `last_item[0]` stays `None` — the claim says the maximum
timestamp among the copied files (here `datetime.min`) is stored. -/
theorem copy_selected_last_transfer_cex :
    (copy_selected okStep noAbort [fA] none).copied = [fA] ∧
    (copy_selected okStep noAbort [fA] none).lastTransfer ≠ some (maxTs [fA]) := by
  constructor
  · rfl
  · simp only [copy_selected, copyLoop, okStep, noAbort, maxTs]
    decide

/-- C1 (amended): when a `copy_selected` run is never interrupted by
`abort_copy` and at least one copied file has a timestamp strictly after
`datetime.min`, the whole selected list is copied, the maximum timestamp
among the copied files is stored as `'last_transfer'`, a subsequent
`select_new` selects exactly the importable entries (destination does not
exist) with timestamp strictly greater than the stored value, and when all
copied files are strictly newer than the previously stored value the stored
value strictly increases (monotonicity across repeated transfers). -/
theorem copy_selected_last_transfer_select_new
    (copyList : List FileInfo) (lt : Option Nat)
    (hpos : ∃ i ∈ copyList, 0 < i.timestamp) :
    (copy_selected okStep noAbort copyList lt).copied = copyList ∧
    (copy_selected okStep noAbort copyList lt).lastTransfer = some (maxTs copyList) ∧
    (∀ (pathExists : String → Bool) (fileData : List FileInfo) (f : FileInfo),
        f ∈ select_new (copy_selected okStep noAbort copyList lt).lastTransfer
              (mkDisplay pathExists fileData) ↔
          f ∈ fileData ∧ pathExists f.destPath = false ∧
            maxTs copyList < f.timestamp) ∧
    (∀ t0, lt = some t0 → (∀ i ∈ copyList, t0 < i.timestamp) →
        t0 < maxTs copyList) := by
  have hsome : (foldLI (none, 0) copyList).1.isSome := by
    rcases hpos with ⟨i, hi, hts⟩
    exact foldLI_fst_isSome copyList (none, 0) ⟨i, hi, hts⟩
  have hsnd : (foldLI (none, 0) copyList).2 = maxTs copyList :=
    foldLI_snd copyList (none, 0)
  have hlt : (copy_selected okStep noAbort copyList lt).lastTransfer
      = some (maxTs copyList) := by
    unfold copy_selected
    rw [copyLoop_ok]
    rcases hfold : foldLI (none, 0) copyList with ⟨o, t⟩
    rw [hfold] at hsome hsnd
    simp only at hsome hsnd
    rcases o with _ | d
    · simp at hsome
    · subst hsnd; rfl
  refine ⟨?_, hlt, ?_, ?_⟩
  · unfold copy_selected
    rw [copyLoop_ok, finalizeCopy_copied]
    simp
  · intro pathExists fileData f
    rw [hlt, mem_select_new]
    rfl
  · intro t0 hlt0 hall
    rcases hpos with ⟨i, hi, _⟩
    exact Nat.lt_of_lt_of_le (hall i hi) (le_maxTs_of_mem hi)

theorem copy_selected_last_transfer_select_new_witness :
    (∃ i ∈ [fB, fC], 0 < i.timestamp) ∧
    (copy_selected okStep noAbort [fB, fC] (some 3)).lastTransfer
      = some (maxTs [fB, fC]) :=
  ⟨⟨fB, by simp, by decide⟩,
   (copy_selected_last_transfer_select_new [fB, fC] (some 3)
      ⟨fB, by simp, by decide⟩).2.1⟩

/-- C2, counterexample to the claim as stated: a folder-source copy whose
first file is unreadable (`os.path.isfile` false) aborts — `_fail` resets
the source selector and nothing is copied or opened — but nothing at all is
logged: `FolderSource.copy_files` yields `None` without a `logger` call, so
the "logs the failure" part of the claim is false for folder sources. -/
theorem copy_unreadable_aborts_cex :
    (copy_selected (folderCopyStep (fun _ => false)) noAbort [fA] none).selectorReset
        = true ∧
    (copy_selected (folderCopyStep (fun _ => false)) noAbort [fA] none).copied = [] ∧
    (copy_selected (folderCopyStep (fun _ => false)) noAbort [fA] none).opened = [] ∧
    (copy_selected (folderCopyStep (fun _ => false)) noAbort [fA] none).log = [] :=
  ⟨rfl, rfl, rfl, rfl⟩

/-- C2 (amended): an unreadable source aborts the current operation — on a
`None` from `copy_files` the consumer loop calls `_fail` (resetting the
source selector) and breaks, so exactly the successful prefix is copied and
opened and nothing after the failure is touched; a `None` from
`get_file_data` makes `list_files` call `_fail` and leave the file list
untouched.  Only the camera source logs its copy failure
(`logger.error(str(ex))`); the folder-source copy failure and the listing
failures abort without logging. -/
theorem copy_unreadable_aborts (isfile : String → Bool) (camOk : FileInfo → Bool)
    (pre : List FileInfo) (bad : FileInfo) (post : List FileInfo) (lt : Option Nat) :
    ((∀ i ∈ pre, isfile i.path = true) → isfile bad.path = false →
      (copy_selected (folderCopyStep isfile) noAbort (pre ++ bad :: post) lt).copied
          = pre ∧
      (copy_selected (folderCopyStep isfile) noAbort (pre ++ bad :: post) lt).opened
          = pre.map (fun i => i.destPath) ∧
      (copy_selected (folderCopyStep isfile) noAbort (pre ++ bad :: post) lt).selectorReset
          = true ∧
      (copy_selected (folderCopyStep isfile) noAbort (pre ++ bad :: post) lt).log = []) ∧
    ((∀ i ∈ pre, camOk i = true) → camOk bad = false →
      (copy_selected (cameraCopyStep camOk) noAbort (pre ++ bad :: post) lt).copied
          = pre ∧
      (copy_selected (cameraCopyStep camOk) noAbort (pre ++ bad :: post) lt).opened
          = pre.map (fun i => i.destPath) ∧
      (copy_selected (cameraCopyStep camOk) noAbort (pre ++ bad :: post) lt).selectorReset
          = true ∧
      (copy_selected (cameraCopyStep camOk) noAbort (pre ++ bad :: post) lt).log
          = [cameraErrMsg]) ∧
    (∀ fileData, list_files none fileData = (fileData, true)) := by
  refine ⟨?_, ?_, fun _ => rfl⟩
  · intro hpre hbad
    have hfail := copyLoop_fail (folderCopyStep isfile) pre bad post
      (fun i hi => by simp [folderCopyStep, hpre i hi])
      (by simp [folderCopyStep, hbad])
      0 ⟨[], [], [], false, lt⟩ (none, 0)
    unfold copy_selected
    rw [hfail, finalizeCopy_copied, finalizeCopy_opened, finalizeCopy_selectorReset,
      finalizeCopy_log]
    simp [folderCopyStep, hbad]
  · intro hpre hbad
    have hfail := copyLoop_fail (cameraCopyStep camOk) pre bad post
      (fun i hi => by simp [cameraCopyStep, hpre i hi])
      (by simp [cameraCopyStep, hbad])
      0 ⟨[], [], [], false, lt⟩ (none, 0)
    unfold copy_selected
    rw [hfail, finalizeCopy_copied, finalizeCopy_opened, finalizeCopy_selectorReset,
      finalizeCopy_log]
    simp [cameraCopyStep, hbad]

theorem copy_unreadable_aborts_witness :
    (copy_selected (folderCopyStep (fun p => decide (p = "/src/IMG_0002.JPG")))
        noAbort ([fB] ++ fA :: [fC]) none).selectorReset = true ∧
    (copy_selected (cameraCopyStep (fun i => decide (i = fB)))
        noAbort ([fB] ++ fA :: [fC]) none).log = [cameraErrMsg] :=
  ⟨((copy_unreadable_aborts (fun p => decide (p = "/src/IMG_0002.JPG"))
        (fun i => decide (i = fB)) [fB] fA [fC] none).1
      (by decide) (by decide)).2.2.1,
   ((copy_unreadable_aborts (fun p => decide (p = "/src/IMG_0002.JPG"))
        (fun i => decide (i = fB)) [fB] fA [fC] none).2.1
      (by decide) (by decide)).2.2.2⟩

/-- A run whose `abort_copy` polls are all false before poll `q` and true at
poll `q`: the loop copies the first `(q - p) / 2 + 1` items (the item just
copied when the failing check happens is included), opens the first
`(q - p + 1) / 2` of them, and folds `last_item` over the first
`(q - p) / 2` (the items that passed both checks). -/
theorem copyLoop_abort (polls : Nat → Bool) (l : List FileInfo) :
    ∀ (p q : Nat) (s : ImportState) (li : Option String × Nat),
      p ≤ q → (∀ r, p ≤ r → r < q → polls r = false) → polls q = true →
      copyLoop okStep polls l p s li =
        finalizeCopy
          { s with copied := s.copied ++ l.take ((q - p) / 2 + 1),
                   opened := s.opened ++
                     (l.take ((q - p + 1) / 2)).map (fun i => i.destPath) }
          (foldLI li (l.take ((q - p) / 2))) := by
  induction l with
  | nil =>
    intro p q s li hpq hfalse htrue
    simp [copyLoop, foldLI]
  | cons i rest ih =>
    intro p q s li hpq hfalse htrue
    rw [copyLoop]
    simp only [okStep, List.append_nil]
    by_cases h0 : q = p
    · subst h0
      rw [htrue]
      have e1 : (q - q) / 2 + 1 = 1 := by omega
      have e2 : (q - q + 1) / 2 = 0 := by omega
      have e3 : (q - q) / 2 = 0 := by omega
      rw [e1, e2, e3]
      simp [foldLI]
    · have hplt : p < q := lt_of_le_of_ne hpq (fun h => h0 h.symm)
      have hp : polls p = false := hfalse p (le_refl p) hplt
      rw [hp]
      simp only [Bool.false_eq_true, if_false]
      by_cases h1 : q = p + 1
      · subst h1
        rw [htrue]
        have e1 : (p + 1 - p) / 2 + 1 = 1 := by omega
        have e2 : (p + 1 - p + 1) / 2 = 1 := by omega
        have e3 : (p + 1 - p) / 2 = 0 := by omega
        rw [e1, e2, e3]
        simp [foldLI]
      · have hplt1 : p + 1 < q := by omega
        have hp1 : polls (p + 1) = false := hfalse (p + 1) (by omega) hplt1
        rw [hp1]
        simp only [Bool.false_eq_true, if_false]
        rw [ih (p + 2) q _ _ (by omega)
          (fun r hr hrq => hfalse r (by omega) hrq) htrue]
        have e1 : (q - p) / 2 + 1 = ((q - (p + 2)) / 2 + 1) + 1 := by omega
        have e2 : (q - p + 1) / 2 = ((q - (p + 2) + 1) / 2) + 1 := by omega
        have e3 : (q - p) / 2 = ((q - (p + 2)) / 2) + 1 := by omega
        rw [e1, e2, e3, List.take_succ_cons, List.take_succ_cons,
          List.take_succ_cons, foldLI_cons]
        congr 1
        simp

/-- C6: `copy_selected` polls the stop flag between copy operations.  After
each file is copied, `abort_copy` checks that the copy button is still
checked and the pane still visible; with the first failing check at poll
`q`, exactly the first `q / 2 + 1` files are copied (the file copied just
before the failing check included) and exactly the first `(q + 1) / 2` are
opened into the image list — no further file is copied or opened in that
run. -/
theorem abort_copy_polling (st : Nat → Bool × Bool) (copyList : List FileInfo)
    (lt : Option Nat) (q : Nat)
    (hok : ∀ r, r < q → (st r).1 = true ∧ (st r).2 = true)
    (hfail : ¬((st q).1 = true ∧ (st q).2 = true)) :
    (copy_selected okStep (fun n => abort_copy (st n).1 (st n).2) copyList lt).copied
        = copyList.take (q / 2 + 1) ∧
    (copy_selected okStep (fun n => abort_copy (st n).1 (st n).2) copyList lt).opened
        = (copyList.take ((q + 1) / 2)).map (fun i => i.destPath) := by
  have h1 : ∀ r, 0 ≤ r → r < q →
      (fun n => abort_copy (st n).1 (st n).2) r = false := by
    intro r _ hr
    rcases hok r hr with ⟨ha, hb⟩
    simp [abort_copy, ha, hb]
  have h2 : (fun n => abort_copy (st n).1 (st n).2) q = true := by
    simp only [abort_copy]
    cases ha : (st q).1 <;> cases hb : (st q).2 <;> simp_all
  have hmain := copyLoop_abort (fun n => abort_copy (st n).1 (st n).2) copyList
    0 q ⟨[], [], [], false, lt⟩ (none, 0) (Nat.zero_le q) h1 h2
  unfold copy_selected
  rw [hmain, finalizeCopy_copied, finalizeCopy_opened]
  constructor <;> simp

theorem abort_copy_polling_witness :
    (copy_selected okStep
        (fun n => abort_copy ((fun m => (decide (m < 3), true)) n).1
                             ((fun m => (decide (m < 3), true)) n).2)
        [fA, fB, fC] none).copied = [fA, fB, fC].take (3 / 2 + 1) :=
  (abort_copy_polling (fun m => (decide (m < 3), true)) [fA, fB, fC] none 3
    (by decide) (by decide)).1

/-! ## ImageList (`imagelist.py`)

The image list is modelled by the list of the `path` attributes of its
`Image` records, in display order.  `os.path.abspath` and `os.path.isfile`
are parameters. -/

/-- `ImageList.get_image`: linear scan for an image whose `path` equals the
given (absolute) path. -/
def get_image (images : List String) (path : String) : Option String :=
  images.find? (fun q => q == path)

/-- `ImageList.open_file`: make the path absolute; return unchanged if it is
not an existing file or an image with that path is already open; otherwise
append a new `Image` record for it (`show_thumbnail` only affects display). -/
def open_file (abspath : String → String) (isfile : String → Bool)
    (images : List String) (path : String) : List String :=
  let p := abspath path
  if !(isfile p) then images
  else if (get_image images p).isSome then images
  else images ++ [p]

/-- A sequence of `ImageList.open_file` calls (e.g. from `open_file_list`). -/
def open_file_seq (abspath : String → String) (isfile : String → Bool) :
    List String → List String → List String
  | images, [] => images
  | images, path :: rest =>
    open_file_seq abspath isfile (open_file abspath isfile images path) rest

theorem open_file_nodup (abspath : String → String) (isfile : String → Bool)
    (images : List String) (path : String) (h : images.Nodup) :
    (open_file abspath isfile images path).Nodup := by
  unfold open_file
  by_cases h1 : isfile (abspath path)
  · by_cases h2 : (get_image images (abspath path)).isSome
    · simp [h1, h2, h]
    · have hnm : abspath path ∉ images := by
        intro hmem
        apply h2
        unfold get_image
        rw [List.find?_isSome]
        exact ⟨abspath path, hmem, by simp⟩
      simp only [h1, h2, Bool.not_true, Bool.false_eq_true, if_false, if_true]
      rw [List.nodup_append]
      exact ⟨h, List.nodup_singleton _, by simpa [List.disjoint_singleton]⟩
  · simp [h1, h]

theorem open_file_seq_nodup (abspath : String → String) (isfile : String → Bool)
    (paths : List String) :
    ∀ images : List String, images.Nodup →
      (open_file_seq abspath isfile images paths).Nodup := by
  induction paths with
  | nil => intro images h; exact h
  | cons p rest ih =>
    intro images h
    exact ih _ (open_file_nodup abspath isfile images p h)

/-- C3: across every sequence of `ImageList.open_file` calls the open-image
list never holds two records with the same absolute path, and a call whose
(absolute) path is already open, or is not an existing file, leaves the list
unchanged. -/
theorem open_file_unique (abspath : String → String) (isfile : String → Bool) :
    (∀ paths : List String, (open_file_seq abspath isfile [] paths).Nodup) ∧
    (∀ (images : List String) (path : String),
        (get_image images (abspath path)).isSome →
        open_file abspath isfile images path = images) ∧
    (∀ (images : List String) (path : String),
        isfile (abspath path) = false →
        open_file abspath isfile images path = images) := by
  refine ⟨fun paths => open_file_seq_nodup abspath isfile paths [] (List.nodup_nil),
    ?_, ?_⟩
  · intro images path h
    simp only [open_file, h]
    by_cases h1 : isfile (abspath path) <;> simp [h1]
  · intro images path h
    simp [open_file, h]

theorem open_file_unique_witness :
    (open_file (fun p => p) (fun _ => true) ["/pics/a.jpg"] "/pics/a.jpg"
      = ["/pics/a.jpg"]) ∧
    (open_file (fun p => p) (fun _ => false) [] "/pics/a.jpg" = []) :=
  ⟨(open_file_unique (fun p => p) (fun _ => true)).2.1 ["/pics/a.jpg"] "/pics/a.jpg"
      (by decide),
   (open_file_unique (fun p => p) (fun _ => false)).2.2 [] "/pics/a.jpg" rfl⟩

/-! ## ImageList selection (`select_image`)

Images are identified by their index in `self.images`; the selection flags
(`Image.selected`) are a `List Bool` of the same length.  `selection_anchor`
and `last_selected` are stored as indices (`self.images.index(...)` is what
the code computes from the stored objects; it raises `ValueError` — modelled
as `none` — when `last_selected` is `None`). -/

structure SelState where
  sel : List Bool
  anchor : Option Nat
  lastSel : Option Nat
deriving DecidableEq, Repr

/-- The selection flags after `for i in range(lo, hi + 1):
images[i].set_selected(v)`: every index in `[lo, hi]` is set to `v`, all
others keep their flag. -/
def setRange (sel : List Bool) (lo hi : Nat) (v : Bool) : List Bool :=
  List.ofFn (fun i : Fin sel.length =>
    if lo ≤ (i : Nat) ∧ (i : Nat) ≤ hi then v else sel.get i)

/-- `ImageList._clear_selection`. -/
def clear_selection (sel : List Bool) : List Bool :=
  sel.map (fun _ => false)

/-- `ImageList.select_image(image, extend_selection, multiple_selection)`.
In the extend branch the code deselects the range between
`selection_anchor` and `last_selected` and then selects the range between
`selection_anchor` and `image`; `none` models the uncaught `ValueError` of
`self.images.index(None)`. -/
def select_image (s : SelState) (tgt : Nat) (extend multiple : Bool) :
    Option SelState :=
  if extend && s.anchor.isSome then
    match s.anchor, s.lastSel with
    | some a, some l =>
      let s1 := setRange s.sel (min a l) (max a l) false
      let s2 := setRange s1 (min a tgt) (max a tgt) true
      some ⟨s2, some a, some tgt⟩
    | _, _ => none
  else if multiple then
    some ⟨s.sel.set tgt (!(s.sel.getD tgt false)), some tgt, some tgt⟩
  else
    some ⟨(clear_selection s.sel).set tgt true, some tgt, some tgt⟩

theorem setRange_length (sel : List Bool) (lo hi : Nat) (v : Bool) :
    (setRange sel lo hi v).length = sel.length := by
  simp [setRange]

theorem getD_setRange (sel : List Bool) (lo hi : Nat) (v : Bool) (i : Nat)
    (h : i < sel.length) :
    (setRange sel lo hi v).getD i false =
      if lo ≤ i ∧ i ≤ hi then v else sel.getD i false := by
  have h2 : i < (setRange sel lo hi v).length := by rw [setRange_length]; exact h
  rw [List.getD_eq_getElem _ _ h2, List.getD_eq_getElem _ _ h]
  simp [setRange]

/-- C10: when the current selection is exactly the contiguous index range
between `selection_anchor` and `last_selected`, `select_image` with
`extend_selection=True` on any image deselects that range and selects
exactly the contiguous range between the anchor and the given image, leaving
the anchor unchanged and setting `last_selected` to the given image; no
image outside the new range ends up selected. -/
theorem select_image_extend_range (s : SelState) (a l tgt : Nat)
    (ha : s.anchor = some a) (hl : s.lastSel = some l)
    (_han : a < s.sel.length) (_hln : l < s.sel.length) (_htn : tgt < s.sel.length)
    (hsel : ∀ i, i < s.sel.length →
      (s.sel.getD i false = true ↔ (min a l ≤ i ∧ i ≤ max a l))) :
    ∃ s2, select_image s tgt true false = some s2 ∧
      s2.anchor = some a ∧ s2.lastSel = some tgt ∧
      s2.sel.length = s.sel.length ∧
      (∀ i, i < s.sel.length →
        (s2.sel.getD i false = true ↔ (min a tgt ≤ i ∧ i ≤ max a tgt))) := by
  refine ⟨⟨setRange (setRange s.sel (min a l) (max a l) false)
      (min a tgt) (max a tgt) true, some a, some tgt⟩, ?_, rfl, rfl, ?_, ?_⟩
  · simp [select_image, ha, hl]
  · rw [setRange_length, setRange_length]
  · intro i hi
    have hi1 : i < (setRange s.sel (min a l) (max a l) false).length := by
      rw [setRange_length]; exact hi
    rw [getD_setRange _ _ _ _ _ hi1, getD_setRange _ _ _ _ _ hi]
    split_ifs with h1 h2
    · simp [h1]
    · exact iff_of_false (by simp) h1
    · rw [hsel i hi]
      constructor
      · intro hold; exact absurd hold h2
      · intro hnew; exact absurd hnew h1

theorem select_image_extend_range_witness :
    ∃ s2, select_image ⟨[false, true, true, false], some 1, some 2⟩ 3 true false
        = some s2 ∧
      s2.anchor = some 1 ∧ s2.lastSel = some 3 := by
  rcases select_image_extend_range ⟨[false, true, true, false], some 1, some 2⟩
      1 2 3 rfl rfl (by decide) (by decide) (by decide) (by decide) with
    ⟨s2, heq, hanc, hlast, _, _⟩
  exact ⟨s2, heq, hanc, hlast⟩

/-! ## ImageList close (`close_files` / `unsaved_files_dialog`)

An image record carries its path, its `selected` flag and whether its
metadata has unsaved changes (`metadata.changed()`).  The modal dialog's
outcome (`Save` / `Discard` / `Cancel`) is a parameter. -/

structure CImage where
  path : String
  selected : Bool
  changed : Bool
deriving DecidableEq, Repr

inductive DialogChoice
  | save
  | discard
  | cancel
deriving DecidableEq, Repr

/-- The `for ... else` scan of `ImageList.unsaved_files_dialog`: is there an
image with unsaved changes among those affected by the close (every image
when `all_files`, otherwise the selected ones)? -/
def affected_unsaved (allFiles : Bool) (imgs : List CImage) : Bool :=
  imgs.any (fun im => im.changed && (allFiles || im.selected))

/-- `ImageList._save_files()` with no argument saves every image's
metadata, clearing the unsaved-changes state. -/
def save_all (imgs : List CImage) : List CImage :=
  imgs.map (fun im => { im with changed := false })

/-- `ImageList.unsaved_files_dialog(all_files)`: returns `True` at once when
no affected image is unsaved; otherwise shows the modal dialog and returns
`True` after `Save` (saving all files first) or `Discard`, `False` after
`Cancel`.  Result: (return value, images after any save, dialog shown). -/
def unsaved_files_dialog (choice : DialogChoice) (allFiles : Bool)
    (imgs : List CImage) : Bool × List CImage × Bool :=
  if affected_unsaved allFiles imgs then
    match choice with
    | .save => (true, save_all imgs, true)
    | .discard => (true, imgs, true)
    | .cancel => (false, imgs, true)
  else (true, imgs, false)

/-- `ImageList.get_selected_images`. -/
def get_selected_images (imgs : List CImage) : List CImage :=
  imgs.filter (fun im => im.selected)

/-- `ImageList.close_files(all_files)`: return unchanged if the unsaved-data
dialog is cancelled; otherwise remove the close list (all images, or the
selected ones) from the image list; an empty close list also returns early.
Result: (image list afterwards, whether the dialog was shown).  The
re-selection of a neighbouring image after removal only touches selection
state, not list membership, and is not modelled. -/
def close_files (choice : DialogChoice) (allFiles : Bool)
    (imgs : List CImage) : List CImage × Bool :=
  let r := unsaved_files_dialog choice allFiles imgs
  if r.1 then
    let imgs1 := r.2.1
    let closeList := if allFiles then imgs1 else get_selected_images imgs1
    if closeList.isEmpty then (imgs1, r.2.2)
    else (if allFiles then [] else imgs1.filter (fun im => !im.selected), r.2.2)
  else (imgs, r.2.2)

/-- C7: `close_files` is guarded by the unsaved-data dialog: the dialog is
shown exactly when an affected image has unsaved changes; cancelling it
leaves the image list completely unchanged; removal happens only when the
dialog returned true (save or discard) or nothing affected was unsaved, and
then exactly the close list is removed. -/
theorem close_files_guarded (choice : DialogChoice) (allFiles : Bool)
    (imgs : List CImage) :
    ((close_files choice allFiles imgs).2 = affected_unsaved allFiles imgs) ∧
    (affected_unsaved allFiles imgs = true → choice = .cancel →
      (close_files choice allFiles imgs).1 = imgs) ∧
    ((close_files choice allFiles imgs).1 ≠ imgs →
      (affected_unsaved allFiles imgs = false ∨ choice ≠ .cancel)) ∧
    (affected_unsaved allFiles imgs = true → choice = .discard →
      (close_files choice allFiles imgs).1 =
        if allFiles then [] else imgs.filter (fun im => !im.selected)) ∧
    (affected_unsaved allFiles imgs = true → choice = .save →
      (close_files choice allFiles imgs).1 =
        if allFiles then [] else (save_all imgs).filter (fun im => !im.selected)) := by
  have hne : affected_unsaved allFiles imgs = true →
      (if allFiles then imgs else get_selected_images imgs).isEmpty = false := by
    intro haff
    rcases List.any_eq_true.mp haff with ⟨im, him, hcond⟩
    simp only [Bool.and_eq_true, Bool.or_eq_true] at hcond
    cases hall : allFiles
    · subst hall
      simp only [Bool.false_eq_true, if_false]
      rw [List.isEmpty_eq_false_iff_exists_mem]
      rcases hcond with ⟨hch, hfalse | hsel⟩
      · cases hfalse
      · exact ⟨im, List.mem_filter.mpr ⟨him, hsel⟩⟩
    · subst hall
      simp only [if_true]
      rw [List.isEmpty_eq_false_iff_exists_mem]
      exact ⟨im, him⟩
  have hnes : affected_unsaved allFiles imgs = true →
      (if allFiles then save_all imgs
       else get_selected_images (save_all imgs)).isEmpty = false := by
    intro haff
    rcases List.any_eq_true.mp haff with ⟨im, him, hcond⟩
    simp only [Bool.and_eq_true, Bool.or_eq_true] at hcond
    cases hall : allFiles
    · subst hall
      simp only [Bool.false_eq_true, if_false]
      rw [List.isEmpty_eq_false_iff_exists_mem]
      rcases hcond with ⟨hch, hfalse | hsel⟩
      · cases hfalse
      · exact ⟨{ im with changed := false },
          List.mem_filter.mpr ⟨List.mem_map.mpr ⟨im, him, rfl⟩, hsel⟩⟩
    · subst hall
      simp only [if_true]
      rw [List.isEmpty_eq_false_iff_exists_mem]
      exact ⟨{ im with changed := false }, List.mem_map.mpr ⟨im, him, rfl⟩⟩
  refine ⟨?_, ?_, ?_, ?_, ?_⟩
  · unfold close_files unsaved_files_dialog
    by_cases haff : affected_unsaved allFiles imgs
    · have h1 := hne haff
      have h2 := hnes haff
      cases choice <;> simp only [haff, if_true] <;> simp [h1, h2]
    · simp only [Bool.not_eq_true] at haff
      simp only [haff, Bool.false_eq_true, if_false, if_true]
      split_ifs <;> simp [haff]
  · intro haff hch
    subst hch
    unfold close_files unsaved_files_dialog
    simp [haff]
  · intro hchanged
    by_cases haff : affected_unsaved allFiles imgs
    · right
      intro hch
      subst hch
      apply hchanged
      unfold close_files unsaved_files_dialog
      simp [haff]
    · exact Or.inl (by simpa using haff)
  · intro haff hch
    subst hch
    unfold close_files unsaved_files_dialog
    simp only [haff, if_true]
    have h := hne haff
    cases hall : allFiles
    · simp only [hall, Bool.false_eq_true, if_false] at h ⊢
      simp [h]
    · simp only [hall, if_true] at h ⊢
      simp [h]
  · intro haff hch
    subst hch
    unfold close_files unsaved_files_dialog
    simp only [haff, if_true]
    have h := hnes haff
    cases hall : allFiles
    · simp only [hall, Bool.false_eq_true, if_false] at h ⊢
      simp [h]
    · simp only [hall, if_true] at h ⊢
      simp [h]

theorem close_files_guarded_witness :
    (close_files .cancel false
        [⟨"/pics/a.jpg", true, true⟩, ⟨"/pics/b.jpg", false, false⟩]).1 =
      [⟨"/pics/a.jpg", true, true⟩, ⟨"/pics/b.jpg", false, false⟩] :=
  (close_files_guarded .cancel false
      [⟨"/pics/a.jpg", true, true⟩, ⟨"/pics/b.jpg", false, false⟩]).2.1
    (by decide) rfl

/-! ## ThumbsLayout (`imagelist.py` `ThumbsLayout._do_layout`)

Qt sizes and coordinates are Python ints; `//` is Python floor division,
which on `Int` is `Int.fdiv`.  `l, t, r, b` are the contents margins,
`iw, ih` the common item (cell) size, `n` the number of cells, `vpW, vpH`
the viewport size and `oX, oY` the layout origin. -/

structure Layout where
  multiRow : Bool
  columns : Int
  rows : Int
  sizeHintW : Int
  sizeHintH : Int
  positions : List (Int × Int)
deriving DecidableEq, Repr

/-- The geometry loop of `_do_layout`: cell `n` is placed at column
`n % columns` and row `n // columns` (Python `%` and `//`; for the positive
column counts used here these agree with `Int.emod` / `Int.ediv`). -/
def cellPositions (left top iw ih cols oX oY : Int) (n : Nat) :
    List (Int × Int) :=
  (List.range n).map (fun (k : Nat) =>
    (oX + left + ((k : Int) % cols) * iw, oY + top + ((k : Int) / cols) * ih))

/-- `ThumbsLayout._do_layout`: with an empty item list only the margins-only
size hint is computed and no geometry is set; otherwise `multi_row` holds
when the viewport height minus the vertical margins exceeds the item
height, the column and row counts follow, the size hint adds
`columns * item_w` and `rows * item_h` to the margins, and the cells are
laid out on the `columns`-wide grid. -/
def do_layout (l t r b iw ih : Int) (n : Nat) (vpW vpH oX oY : Int) : Layout :=
  let wh := l + r
  let hh := t + b
  if n = 0 then ⟨false, 0, 0, wh, hh, []⟩
  else if ih < vpH - hh then
    let cols : Int := max ((vpW - wh).fdiv iw) 1
    let rws : Int := ((n : Int) + cols - 1).fdiv cols
    ⟨true, cols, rws, wh + cols * iw, hh + rws * ih,
     cellPositions l t iw ih cols oX oY n⟩
  else
    ⟨false, (n : Int), 1, wh + (n : Int) * iw, hh + 1 * ih,
     cellPositions l t iw ih (n : Int) oX oY n⟩

theorem getD_range_map {α : Type} (f : Nat → α) (n k : Nat) (d : α)
    (h : k < n) : ((List.range n).map f).getD k d = f k := by
  have hlen : k < ((List.range n).map f).length := by simp [h]
  rw [List.getD_eq_getElem _ _ hlen]
  simp

theorem getD_cellPositions (left top iw ih cols oX oY : Int) (n k : Nat)
    (h : k < n) :
    (cellPositions left top iw ih cols oX oY n).getD k (0, 0) =
      (oX + left + ((k : Int) % cols) * iw,
       oY + top + ((k : Int) / cols) * ih) := by
  unfold cellPositions
  rw [getD_range_map _ _ _ _ h]

/-- `(N + C - 1) // C` is the least integer at least `N / C`: the row count
covers all `N` cells and wastes less than one full row. -/
theorem ceil_div_char (N C : Int) (hC : 0 < C) :
    N ≤ ((N + C - 1).fdiv C) * C ∧ ((N + C - 1).fdiv C) * C < N + C := by
  rw [Int.fdiv_eq_ediv _ hC.le]
  have h1 := Int.ediv_add_emod (N + C - 1) C
  have h2 := Int.emod_nonneg (N + C - 1) (ne_of_gt hC)
  have h3 := Int.emod_lt_of_pos (N + C - 1) hC
  have h4 := mul_comm C ((N + C - 1) / C)
  constructor <;> linarith [h1, h2, h3, h4]

/-- C4: for a non-empty list of equal-size cells the layout is the grid the
claim describes: in the multi-row case (viewport height minus vertical
margins exceeds cell height) `C = max((vpW - margins) // iw, 1)` columns
with `ceil(n / C)` rows (characterised as the least row count covering `n`),
cell `k` at column `k mod C` and row `k div C` (as natural numbers), and the
size hint exactly `C * iw` by `rows * ih` plus margins; otherwise a single
row of `n` columns. -/
theorem do_layout_grid (l t r b iw ih : Int) (n : Nat) (vpW vpH oX oY : Int)
    (hn : 0 < n) (_hiw : 0 < iw) :
    (ih < vpH - (t + b) →
      (do_layout l t r b iw ih n vpW vpH oX oY).multiRow = true ∧
      (do_layout l t r b iw ih n vpW vpH oX oY).columns
          = max ((vpW - (l + r)).fdiv iw) 1 ∧
      ((n : Int) ≤ (do_layout l t r b iw ih n vpW vpH oX oY).rows *
          (do_layout l t r b iw ih n vpW vpH oX oY).columns ∧
        (do_layout l t r b iw ih n vpW vpH oX oY).rows *
          (do_layout l t r b iw ih n vpW vpH oX oY).columns <
            (n : Int) + (do_layout l t r b iw ih n vpW vpH oX oY).columns) ∧
      (do_layout l t r b iw ih n vpW vpH oX oY).sizeHintW
          = (l + r) + (do_layout l t r b iw ih n vpW vpH oX oY).columns * iw ∧
      (do_layout l t r b iw ih n vpW vpH oX oY).sizeHintH
          = (t + b) + (do_layout l t r b iw ih n vpW vpH oX oY).rows * ih ∧
      (∀ k, k < n →
        (do_layout l t r b iw ih n vpW vpH oX oY).positions.getD k (0, 0) =
          (oX + l +
            ((k % (do_layout l t r b iw ih n vpW vpH oX oY).columns.toNat : Nat) : Int)
              * iw,
           oY + t +
            ((k / (do_layout l t r b iw ih n vpW vpH oX oY).columns.toNat : Nat) : Int)
              * ih))) ∧
    (¬(ih < vpH - (t + b)) →
      (do_layout l t r b iw ih n vpW vpH oX oY).multiRow = false ∧
      (do_layout l t r b iw ih n vpW vpH oX oY).columns = (n : Int) ∧
      (do_layout l t r b iw ih n vpW vpH oX oY).rows = 1 ∧
      (do_layout l t r b iw ih n vpW vpH oX oY).sizeHintW
          = (l + r) + (n : Int) * iw ∧
      (do_layout l t r b iw ih n vpW vpH oX oY).sizeHintH = (t + b) + ih ∧
      (∀ k, k < n →
        (do_layout l t r b iw ih n vpW vpH oX oY).positions.getD k (0, 0) =
          (oX + l + (k : Int) * iw, oY + t))) := by
  have hn0 : n ≠ 0 := Nat.pos_iff_ne_zero.mp hn
  constructor
  · intro hm
    have hL : do_layout l t r b iw ih n vpW vpH oX oY =
        ⟨true, max ((vpW - (l + r)).fdiv iw) 1,
         ((n : Int) + max ((vpW - (l + r)).fdiv iw) 1 - 1).fdiv
            (max ((vpW - (l + r)).fdiv iw) 1),
         (l + r) + max ((vpW - (l + r)).fdiv iw) 1 * iw,
         (t + b) + (((n : Int) + max ((vpW - (l + r)).fdiv iw) 1 - 1).fdiv
            (max ((vpW - (l + r)).fdiv iw) 1)) * ih,
         cellPositions l t iw ih (max ((vpW - (l + r)).fdiv iw) 1) oX oY n⟩ := by
      unfold do_layout
      simp only [hn0, if_false, if_pos hm]
    have hC : (0 : Int) < max ((vpW - (l + r)).fdiv iw) 1 :=
      lt_of_lt_of_le one_pos (le_max_right _ _)
    rw [hL]
    refine ⟨rfl, rfl, ceil_div_char (n : Int) _ hC, rfl, rfl, ?_⟩
    intro k hk
    rw [getD_cellPositions _ _ _ _ _ _ _ _ _ hk]
    simp only
    rw [Int.natCast_mod, Int.natCast_div, Int.toNat_of_nonneg hC.le]
  · intro hm
    have hL : do_layout l t r b iw ih n vpW vpH oX oY =
        ⟨false, (n : Int), 1, (l + r) + (n : Int) * iw, (t + b) + ih,
         cellPositions l t iw ih (n : Int) oX oY n⟩ := by
      unfold do_layout
      simp only [hn0, if_false, if_neg hm]
      congr 1
      ring
    rw [hL]
    refine ⟨rfl, rfl, rfl, rfl, rfl, ?_⟩
    intro k hk
    rw [getD_cellPositions _ _ _ _ _ _ _ _ _ hk]
    have h1 : (k : Int) % (n : Int) = (k : Int) :=
      Int.emod_eq_of_lt (Int.natCast_nonneg k) (by exact_mod_cast hk)
    have h2 : (k : Int) / (n : Int) = 0 :=
      Int.ediv_eq_zero_of_lt (Int.natCast_nonneg k) (by exact_mod_cast hk)
    simp only [h1, h2, zero_mul, add_zero]

theorem do_layout_grid_witness :
    (do_layout 0 0 0 0 80 80 5 250 300 0 0).columns
        = max (((250 : Int) - (0 + 0)).fdiv 80) 1 ∧
    (do_layout 0 0 0 0 80 80 5 250 300 0 0).positions.getD 4 (0, 0) =
      ((0 : Int) + 0 +
        ((4 % (do_layout 0 0 0 0 80 80 5 250 300 0 0).columns.toNat : Nat) : Int) * 80,
       (0 : Int) + 0 +
        ((4 / (do_layout 0 0 0 0 80 80 5 250 300 0 0).columns.toNat : Nat) : Int) * 80) :=
  ⟨((do_layout_grid 0 0 0 0 80 80 5 250 300 0 0 (by decide) (by decide)).1
      (by decide)).2.1,
   ((do_layout_grid 0 0 0 0 80 80 5 250 300 0 0 (by decide) (by decide)).1
      (by decide)).2.2.2.2.2 4 (by decide)⟩

/-! ## Thumbnail regeneration (`imagelist.py` `Image.regenerate_thumbnail`)

Only the image dimensions matter for the claims.  `qt` is the result of
`QtGui.QImage(self.path)` (after the orientation transform applied to
cr2/nef files), `cv` the result of `Image.get_video_frame`, both `none`
when the data cannot be decoded.  `shrink` is Qt's
`scaled(6000, 6000, KeepAspectRatio)` call, applied exactly when
`max(w, h) >= 6000`.

`int(0.5 + float(w * 3) / 4.0)` is `floor(3 * w / 4 + 1 / 2)` in exact
arithmetic; for the `/ 3.0` variants the double rounding of the float
division never changes the floor because `4 * h / 3 + 1 / 2 = (8 * h + 3) / 6`
is never an integer or half-integer and the quotient is exactly
representable to much better than `1 / 6` for all `h ≤ 6000`. -/

structure Img where
  w : Nat
  h : Nat
deriving DecidableEq, Repr

/-- `int(0.5 + a / b)` for non-negative ints: `floor(a / b + 1 / 2)`,
computed as a natural-number division. -/
def pyround (a b : Nat) : Nat := (2 * a + b) / (2 * b)

/-- The claim's rounding function: `round(x) = floor(x + 1/2)` on exact
rationals. -/
def roundHalf (q : ℚ) : ℤ := ⌊q + 1 / 2⌋

/-- The result of the 4:3 (3:4 for portrait) padding step: the padded
picture and how far the original is offset into it (`qt_im.copy` with a
negative position pads symmetrically, the extra pixel going to the
right/bottom). -/
structure PadResult where
  picture : Img
  padLeft : Nat
  padTop : Nat
deriving DecidableEq, Repr

/-- The DCF padding of `regenerate_thumbnail`: for landscape (`w >= h`)
compute `new_h = int(0.5 + w * 3 / 4)` and `new_w = int(0.5 + h * 4 / 3)`
and pad rows if `new_h > h`, else columns if `new_w > w`; mirrored for
portrait. -/
def pad43 (w h : Nat) : PadResult :=
  if h ≤ w then
    let new_h := pyround (w * 3) 4
    let new_w := pyround (h * 4) 3
    if h < new_h then ⟨⟨w, new_h⟩, 0, (new_h - h) / 2⟩
    else if w < new_w then ⟨⟨new_w, h⟩, (new_w - w) / 2, 0⟩
    else ⟨⟨w, h⟩, 0, 0⟩
  else
    let new_h := pyround (w * 4) 3
    let new_w := pyround (h * 3) 4
    if w < new_w then ⟨⟨new_w, h⟩, (new_w - w) / 2, 0⟩
    else if h < new_h then ⟨⟨w, new_h⟩, 0, (new_h - h) / 2⟩
    else ⟨⟨w, h⟩, 0, 0⟩

/-- The final thumbnail size set by `regenerate_thumbnail`:
`w, h = 160, 120` for landscape, `120, 160` for portrait. -/
def finalDims (w h : Nat) : Img :=
  if h ≤ w then ⟨160, 120⟩ else ⟨120, 160⟩

/-- What `regenerate_thumbnail` reads as the image: the Qt decode, falling
back to the OpenCV first frame for videos. -/
def effective_decode (qt : Option Img) (isVideo : Bool) (cv : Option Img) :
    Option Img :=
  match qt with
  | some im => some im
  | none => if isVideo then cv else none

/-- The pre-shrink of very large images. -/
def preshrink (shrink : Img → Img) (im : Img) : Img :=
  if 6000 ≤ max im.w im.h then shrink im else im

/-- The `logger.error('Cannot read %s image data from %s', ...)` message. -/
def thumbErrMsg : String := "Cannot read image data"

/-- The stored `metadata.thumbnail` is `(data, fmt, w, h)`; the model keeps
the dimensions of the padded picture the data was resized from and the
stored `(w, h)`. -/
structure ThumbState where
  thumbnail : Option (Img × Img)
  log : List String
deriving DecidableEq, Repr

/-- `Image.regenerate_thumbnail`: decode (with video fallback), log and
return on failure; otherwise pre-shrink, pad to 4:3 / 3:4, resize to
160x120 / 120x160 and store that as the thumbnail. -/
def regenerate_thumbnail (shrink : Img → Img) (qt : Option Img)
    (isVideo : Bool) (cv : Option Img) (s : ThumbState) : ThumbState :=
  match effective_decode qt isVideo cv with
  | none => { s with log := s.log ++ [thumbErrMsg] }
  | some im0 =>
    let im := preshrink shrink im0
    { s with thumbnail := some ((pad43 im.w im.h).picture, finalDims im.w im.h) }

theorem pyround_cast (a b : Nat) (hb : 0 < b) :
    ((pyround a b : Nat) : ℤ) = roundHalf ((a : ℚ) / (b : ℚ)) := by
  have hb2 : (0 : ℚ) < ((2 * b : ℕ) : ℚ) := by
    push_cast
    positivity
  have hx : (a : ℚ) / (b : ℚ) + 1 / 2 = ((2 * a + b : ℕ) : ℚ) / ((2 * b : ℕ) : ℚ) := by
    have hbq : ((b : ℚ)) ≠ 0 := Nat.cast_ne_zero.mpr (Nat.pos_iff_ne_zero.mp hb)
    push_cast
    field_simp
    ring
  have hq : 2 * b * ((2 * a + b) / (2 * b)) + (2 * a + b) % (2 * b) = 2 * a + b :=
    Nat.div_add_mod _ _
  have hr : (2 * a + b) % (2 * b) < 2 * b := Nat.mod_lt _ (by omega)
  have hlow : (2 * a + b) / (2 * b) * (2 * b) ≤ 2 * a + b := by
    rw [Nat.mul_comm]
    exact Nat.le.intro hq
  have hhigh : 2 * a + b < ((2 * a + b) / (2 * b) + 1) * (2 * b) := by
    have hstep : 2 * b * ((2 * a + b) / (2 * b)) + (2 * a + b) % (2 * b) <
        2 * b * ((2 * a + b) / (2 * b)) + 2 * b := Nat.add_lt_add_left hr _
    rw [hq] at hstep
    calc 2 * a + b < 2 * b * ((2 * a + b) / (2 * b)) + 2 * b := hstep
    _ = ((2 * a + b) / (2 * b) + 1) * (2 * b) := by ring
  unfold roundHalf pyround
  rw [hx]
  apply Eq.symm
  rw [Int.floor_eq_iff]
  constructor
  · rw [le_div_iff₀ hb2]
    exact_mod_cast hlow
  · rw [div_lt_iff₀ hb2]
    push_cast
    exact_mod_cast hhigh

theorem roundHalf_mul_div_cast (c d w : Nat) (hd : 0 < d) :
    roundHalf ((c * (w : ℚ)) / d) = ((pyround (w * c) d : Nat) : ℤ) := by
  rw [pyround_cast (w * c) d hd]
  congr 1
  push_cast
  ring

/-- C5: for every successfully read image of width `w` and height `h`
(after orientation correction and the 6000-pixel pre-shrink), the picture is
padded towards 4:3 — 3:4 when `h > w` — by centring: for landscape, rows
are added when `round(3w/4) > h` (giving a `w` by `round(3w/4)` picture with
the original offset `(new_h - h) / 2` rows down), else columns when
`round(4h/3) > w`; mirrored for portrait, where columns are added when
`round(3h/4) > w`, else rows when `round(4w/3) > h`; `round(x) = floor(x + 1/2)`;
and the stored thumbnail is exactly 160x120 (landscape) or 120x160
(portrait). -/
theorem thumbnail_pad_resize (w h : Nat) :
    (h ≤ w →
      ((h : ℤ) < roundHalf ((3 * (w : ℚ)) / 4) →
        pad43 w h = ⟨⟨w, (roundHalf ((3 * (w : ℚ)) / 4)).toNat⟩, 0,
          ((roundHalf ((3 * (w : ℚ)) / 4)).toNat - h) / 2⟩) ∧
      (¬((h : ℤ) < roundHalf ((3 * (w : ℚ)) / 4)) →
        (w : ℤ) < roundHalf ((4 * (h : ℚ)) / 3) →
        pad43 w h = ⟨⟨(roundHalf ((4 * (h : ℚ)) / 3)).toNat, h⟩,
          ((roundHalf ((4 * (h : ℚ)) / 3)).toNat - w) / 2, 0⟩) ∧
      (¬((h : ℤ) < roundHalf ((3 * (w : ℚ)) / 4)) →
        ¬((w : ℤ) < roundHalf ((4 * (h : ℚ)) / 3)) →
        pad43 w h = ⟨⟨w, h⟩, 0, 0⟩) ∧
      finalDims w h = ⟨160, 120⟩) ∧
    (w < h →
      ((w : ℤ) < roundHalf ((3 * (h : ℚ)) / 4) →
        pad43 w h = ⟨⟨(roundHalf ((3 * (h : ℚ)) / 4)).toNat, h⟩,
          ((roundHalf ((3 * (h : ℚ)) / 4)).toNat - w) / 2, 0⟩) ∧
      (¬((w : ℤ) < roundHalf ((3 * (h : ℚ)) / 4)) →
        (h : ℤ) < roundHalf ((4 * (w : ℚ)) / 3) →
        pad43 w h = ⟨⟨w, (roundHalf ((4 * (w : ℚ)) / 3)).toNat⟩, 0,
          ((roundHalf ((4 * (w : ℚ)) / 3)).toNat - h) / 2⟩) ∧
      (¬((w : ℤ) < roundHalf ((3 * (h : ℚ)) / 4)) →
        ¬((h : ℤ) < roundHalf ((4 * (w : ℚ)) / 3)) →
        pad43 w h = ⟨⟨w, h⟩, 0, 0⟩) ∧
      finalDims w h = ⟨120, 160⟩) ∧
    (∀ (shrink : Img → Img) (qt cv : Option Img) (isVideo : Bool)
        (s : ThumbState) (im : Img),
      effective_decode qt isVideo cv = some im →
      (regenerate_thumbnail shrink qt isVideo cv s).thumbnail =
        some ((pad43 (preshrink shrink im).w (preshrink shrink im).h).picture,
              finalDims (preshrink shrink im).w (preshrink shrink im).h)) := by
  have e34w : roundHalf ((3 * (w : ℚ)) / 4) = ((pyround (w * 3) 4 : Nat) : ℤ) :=
    roundHalf_mul_div_cast 3 4 w (by norm_num)
  have e43h : roundHalf ((4 * (h : ℚ)) / 3) = ((pyround (h * 4) 3 : Nat) : ℤ) :=
    roundHalf_mul_div_cast 4 3 h (by norm_num)
  have e34h : roundHalf ((3 * (h : ℚ)) / 4) = ((pyround (h * 3) 4 : Nat) : ℤ) :=
    roundHalf_mul_div_cast 3 4 h (by norm_num)
  have e43w : roundHalf ((4 * (w : ℚ)) / 3) = ((pyround (w * 4) 3 : Nat) : ℤ) :=
    roundHalf_mul_div_cast 4 3 w (by norm_num)
  refine ⟨?_, ?_, ?_⟩
  · intro hle
    refine ⟨?_, ?_, ?_, by simp [finalDims, hle]⟩
    · intro hcond
      have hc : h < pyround (w * 3) 4 := by
        rw [e34w] at hcond
        exact_mod_cast hcond
      rw [e34w, Int.toNat_natCast]
      simp [pad43, hle, hc]
    · intro hcond1 hcond2
      have hc1 : ¬(h < pyround (w * 3) 4) := by
        rw [e34w] at hcond1
        intro hlt
        exact hcond1 (by exact_mod_cast hlt)
      have hc2 : w < pyround (h * 4) 3 := by
        rw [e43h] at hcond2
        exact_mod_cast hcond2
      rw [e43h, Int.toNat_natCast]
      simp [pad43, hle, hc1, hc2]
    · intro hcond1 hcond2
      have hc1 : ¬(h < pyround (w * 3) 4) := by
        rw [e34w] at hcond1
        intro hlt
        exact hcond1 (by exact_mod_cast hlt)
      have hc2 : ¬(w < pyround (h * 4) 3) := by
        rw [e43h] at hcond2
        intro hlt
        exact hcond2 (by exact_mod_cast hlt)
      simp [pad43, hle, hc1, hc2]
  · intro hlt
    have hnle : ¬(h ≤ w) := Nat.not_le_of_lt hlt
    refine ⟨?_, ?_, ?_, by simp [finalDims, hnle]⟩
    · intro hcond
      have hc : w < pyround (h * 3) 4 := by
        rw [e34h] at hcond
        exact_mod_cast hcond
      rw [e34h, Int.toNat_natCast]
      simp [pad43, hnle, hc]
    · intro hcond1 hcond2
      have hc1 : ¬(w < pyround (h * 3) 4) := by
        rw [e34h] at hcond1
        intro hlt2
        exact hcond1 (by exact_mod_cast hlt2)
      have hc2 : h < pyround (w * 4) 3 := by
        rw [e43w] at hcond2
        exact_mod_cast hcond2
      rw [e43w, Int.toNat_natCast]
      simp [pad43, hnle, hc1, hc2]
    · intro hcond1 hcond2
      have hc1 : ¬(w < pyround (h * 3) 4) := by
        rw [e34h] at hcond1
        intro hlt2
        exact hcond1 (by exact_mod_cast hlt2)
      have hc2 : ¬(h < pyround (w * 4) 3) := by
        rw [e43w] at hcond2
        intro hlt2
        exact hcond2 (by exact_mod_cast hlt2)
      simp [pad43, hnle, hc1, hc2]
  · intro shrink qt cv isVideo s im hdec
    unfold regenerate_thumbnail
    rw [hdec]

theorem thumbnail_pad_resize_witness :
    finalDims 5 3 = ⟨160, 120⟩ ∧
    pad43 5 3 = ⟨⟨5, (roundHalf ((3 * ((5 : Nat) : ℚ)) / 4)).toNat⟩, 0,
      ((roundHalf ((3 * ((5 : Nat) : ℚ)) / 4)).toNat - 3) / 2⟩ :=
  ⟨((thumbnail_pad_resize 5 3).1 (by decide)).2.2.2,
   ((thumbnail_pad_resize 5 3).1 (by decide)).1
     (by norm_num [roundHalf])⟩

/-- C8: when neither Qt nor (for videos) the OpenCV first-frame fallback can
decode the file, `regenerate_thumbnail` logs an error and returns with the
stored thumbnail unchanged; the thumbnail field changes only when the image
was successfully decoded. -/
theorem thumbnail_error_unchanged (shrink : Img → Img) (qt cv : Option Img)
    (isVideo : Bool) (s : ThumbState) :
    (qt = none → (isVideo = true → cv = none) →
      (regenerate_thumbnail shrink qt isVideo cv s).thumbnail = s.thumbnail ∧
      (regenerate_thumbnail shrink qt isVideo cv s).log = s.log ++ [thumbErrMsg]) ∧
    ((regenerate_thumbnail shrink qt isVideo cv s).thumbnail ≠ s.thumbnail →
      ∃ im, effective_decode qt isVideo cv = some im) := by
  constructor
  · intro hqt hcv
    subst hqt
    have hdec : effective_decode none isVideo cv = none := by
      cases isVideo
      · rfl
      · simp [effective_decode, hcv rfl]
    unfold regenerate_thumbnail
    rw [hdec]
    exact ⟨rfl, rfl⟩
  · intro hch
    cases hdec : effective_decode qt isVideo cv with
    | some im => exact ⟨im, rfl⟩
    | none =>
      exfalso
      apply hch
      unfold regenerate_thumbnail
      rw [hdec]

theorem thumbnail_error_unchanged_witness :
    (regenerate_thumbnail (fun im => im) none true none
        ⟨some (⟨5, 3⟩, ⟨160, 120⟩), []⟩).thumbnail
      = (⟨some (⟨5, 3⟩, ⟨160, 120⟩), []⟩ : ThumbState).thumbnail :=
  ((thumbnail_error_unchanged (fun im => im) none none true
      ⟨some (⟨5, 3⟩, ⟨160, 120⟩), []⟩).1 rfl (fun _ => rfl)).1

/-! ## NameMangler (`importer.py` `NameMangler.transform`)

`transform` builds a substitution dict from the file record, runs
`self.format_string.format(**subst)` catching `(KeyError, ValueError)` — in
which case the format string is used verbatim — and finally applies the
timestamp's `strftime` to the result.  `strftime` (a total
string-to-string function for any timestamp) is a parameter.

`str.format` is modelled by `pyFormat` below, faithful to CPython for
templates over keyword substitutions: literal text with doubled braces,
named fields with an optional `!s`/`!r`/`!a` conversion and a string format
spec (`[[fill]align][0][width][.precision][s]`).  An empty or all-digit
field name is a positional argument — `format(**subst)` passes none, so
CPython raises an uncaught `IndexError`.  Fields using attribute or index
access (`.`/`[` after the name) and nested replacement fields inside a
format spec are outside the model: the model raises `attrError` /
`valueError` for them (CPython may raise various uncaught exceptions or, in
some cases, succeed there).  `!r`/`!a` quoting ignores escaping. -/

inductive PyExc
  | keyError
  | valueError
  | indexError
  | attrError
deriving DecidableEq, Repr

structure Subst where
  name : String
  number : String
  root : String
  ext : String
  camera : String
deriving DecidableEq, Repr

structure FileData where
  name : String
  camera : Option String
  timestamp : Nat
deriving DecidableEq, Repr

def lbrace : Char := Char.ofNat 123

def rbrace : Char := Char.ofNat 125

def squote : Char := Char.ofNat 39

/-- `re.compile('(\d+)').findall(name)[-1]` (or `''` when there is no
digit run): scan the characters keeping the current digit run and the last
completed one. -/
def lastNumberAux : List Char → List Char → List Char → List Char
  | [], cur, best => if cur.isEmpty then best else cur
  | c :: cs, cur, best =>
    if c.isDigit then lastNumberAux cs (cur ++ [c]) best
    else lastNumberAux cs [] (if cur.isEmpty then best else cur)

def lastNumber (s : String) : String :=
  String.mk (lastNumberAux s.data [] [])

/-- Index of the last `'.'`, if any. -/
def lastDotIdx : List Char → Option Nat
  | [] => none
  | c :: cs =>
    match lastDotIdx cs with
    | some i => some (i + 1)
    | none => if c = '.' then some 0 else none

/-- `os.path.splitext` for a bare file name (no directory separators):
split at the last dot unless every character before it is a dot. -/
def splitext (s : String) : String × String :=
  match lastDotIdx s.data with
  | none => (s, "")
  | some i =>
    if (s.data.take i).any (fun c => c ≠ '.') then
      (String.mk (s.data.take i), String.mk (s.data.drop i))
    else (s, "")

def underscoreSpaces (s : String) : String :=
  String.mk (s.data.map (fun c => if c = ' ' then '_' else c))

/-- The `subst` dict built by `NameMangler.transform`: `name`, `number`
(the last run of decimal digits of the name, `''` when none), `root`/`ext`
from `os.path.splitext`, and `camera` (`or 'unknown_camera'` — Python `or`
also replaces an empty string — with spaces turned into underscores). -/
def mkSubst (fd : FileData) : Subst :=
  let se := splitext fd.name
  let cam :=
    match fd.camera with
    | none => "unknown_camera"
    | some c => if c = "" then "unknown_camera" else c
  ⟨fd.name, lastNumber fd.name, se.1, se.2, underscoreSpaces cam⟩

def lookupSubst (su : Subst) (key : String) : Option String :=
  if key = "name" then some su.name
  else if key = "number" then some su.number
  else if key = "root" then some su.root
  else if key = "ext" then some su.ext
  else if key = "camera" then some su.camera
  else none

/-- Resolve a replacement-field name: an empty or all-digit name is a
positional argument (no positional arguments are passed, so `IndexError`);
attribute/index access is modelled as `attrError`; otherwise look the key up
in the dict (`KeyError` when missing). -/
def resolveName (su : Subst) (nm : List Char) : Except PyExc String :=
  let base := nm.takeWhile (fun c => c ≠ '.' ∧ c ≠ '[')
  if base.isEmpty then .error .indexError
  else if base.all Char.isDigit then .error .indexError
  else if base.length ≠ nm.length then .error .attrError
  else
    match lookupSubst su (String.mk nm) with
    | some v => .ok v
    | none => .error .keyError

/-- `!s` / `!r` / `!a` conversions; anything else is a `ValueError`. -/
def applyConv (v : String) (c : Char) : Except PyExc String :=
  if c = 's' then .ok v
  else if c = 'r' || c = 'a' then .ok (String.mk (squote :: v.data ++ [squote]))
  else .error .valueError

def isAlignChar (c : Char) : Bool := c = '<' || c = '>' || c = '^' || c = '='

def digitsToNat (l : List Char) : Nat :=
  l.foldl (fun acc c => acc * 10 + (c.toNat - 48)) 0

/-- Pad `v` with `fill` to `width` according to the alignment (strings
default to left alignment; centring puts the extra character on the
right). -/
def padTo (v : List Char) (fill align : Char) (width : Nat) : List Char :=
  if width ≤ v.length then v
  else
    let padn := width - v.length
    if align = '>' then List.replicate padn fill ++ v
    else if align = '^' then
      List.replicate (padn / 2) fill ++ v ++
        List.replicate (padn - padn / 2) fill
    else v ++ List.replicate padn fill

/-- `[width][.precision][s]` part of a string format spec. -/
def applySpecAux (v : List Char) (fill align : Char) (rest : List Char) :
    Except PyExc (List Char) :=
  let widthDigits := rest.takeWhile Char.isDigit
  let width := digitsToNat widthDigits
  match rest.dropWhile Char.isDigit with
  | [] => .ok (padTo v fill align width)
  | c :: cs =>
    if c = '.' then
      let precDigits := cs.takeWhile Char.isDigit
      if precDigits.isEmpty then .error .valueError
      else
        let v2 := v.take (digitsToNat precDigits)
        match cs.dropWhile Char.isDigit with
        | [] => .ok (padTo v2 fill align width)
        | [t] => if t = 's' then .ok (padTo v2 fill align width)
                 else .error .valueError
        | _ => .error .valueError
    else if c = 's' ∧ cs.isEmpty then .ok (padTo v fill align width)
    else .error .valueError

/-- A string format spec: `[[fill]align][0][width][.precision][s]`; the
`'='` alignment, sign/`#`/grouping flags and non-`s` presentation types are
a `ValueError` for strings. -/
def applySpec (v : String) (spec : List Char) : Except PyExc String :=
  match spec with
  | [] => .ok v
  | a :: b :: r =>
    if isAlignChar b then
      if b = '=' then .error .valueError
      else (applySpecAux v.data a b r).map String.mk
    else if isAlignChar a then
      if a = '=' then .error .valueError
      else (applySpecAux v.data ' ' a (b :: r)).map String.mk
    else if a = '0' then (applySpecAux v.data '0' '<' (b :: r)).map String.mk
    else (applySpecAux v.data ' ' '<' spec).map String.mk
  | [a] =>
    if isAlignChar a then
      if a = '=' then .error .valueError
      else (applySpecAux v.data ' ' a []).map String.mk
    else if a = '0' then .ok v
    else (applySpecAux v.data ' ' '<' [a]).map String.mk

/-- Render one replacement field: resolve the name, apply the conversion,
apply the format spec — errors in that order, as in CPython. -/
def renderField (su : Subst) (nm : List Char) (conv : Option Char)
    (spec : Option (List Char)) : Except PyExc String := do
  let v ← resolveName su nm
  let v2 ←
    match conv with
    | none => pure v
    | some c => applyConv v c
  match spec with
  | none => pure v2
  | some sp => applySpec v2 sp

/-- Scanner state for `str.format`. -/
inductive FmtMode
  | lit
  | afterLB
  | afterRB
  | inName (nm : List Char)
  | inConv (nm : List Char)
  | afterConv (nm : List Char) (conv : Char)
  | inSpec (nm : List Char) (conv : Option Char) (spec : List Char)

/-- One-character-at-a-time scan of the template: doubled braces are
literals, a single `'\x7d'` outside a field and an unterminated field are
`ValueError`s, and each complete field is rendered by `renderField`. -/
def runFmt (su : Subst) : FmtMode → List Char → Except PyExc String
  | .lit, [] => .ok ""
  | .lit, c :: cs =>
    if c = lbrace then runFmt su .afterLB cs
    else if c = rbrace then runFmt su .afterRB cs
    else (runFmt su .lit cs).map (fun t => String.mk (c :: t.data))
  | .afterLB, [] => .error .valueError
  | .afterLB, c :: cs =>
    if c = lbrace then
      (runFmt su .lit cs).map (fun t => String.mk (lbrace :: t.data))
    else if c = rbrace then
      (renderField su [] none none).bind (fun v =>
        (runFmt su .lit cs).map (fun t => v ++ t))
    else if c = '!' then runFmt su (.inConv []) cs
    else if c = ':' then runFmt su (.inSpec [] none []) cs
    else runFmt su (.inName [c]) cs
  | .afterRB, [] => .error .valueError
  | .afterRB, c :: cs =>
    if c = rbrace then
      (runFmt su .lit cs).map (fun t => String.mk (rbrace :: t.data))
    else .error .valueError
  | .inName _, [] => .error .valueError
  | .inName nm, c :: cs =>
    if c = rbrace then
      (renderField su nm none none).bind (fun v =>
        (runFmt su .lit cs).map (fun t => v ++ t))
    else if c = '!' then runFmt su (.inConv nm) cs
    else if c = ':' then runFmt su (.inSpec nm none []) cs
    else runFmt su (.inName (nm ++ [c])) cs
  | .inConv _, [] => .error .valueError
  | .inConv nm, c :: cs => runFmt su (.afterConv nm c) cs
  | .afterConv _ _, [] => .error .valueError
  | .afterConv nm cv, c :: cs =>
    if c = rbrace then
      (renderField su nm (some cv) none).bind (fun v =>
        (runFmt su .lit cs).map (fun t => v ++ t))
    else if c = ':' then runFmt su (.inSpec nm (some cv) []) cs
    else .error .valueError
  | .inSpec _ _ _, [] => .error .valueError
  | .inSpec nm cv sp, c :: cs =>
    if c = rbrace then
      (renderField su nm cv (some sp)).bind (fun v =>
        (runFmt su .lit cs).map (fun t => v ++ t))
    else if c = lbrace then .error .valueError
    else runFmt su (.inSpec nm cv (sp ++ [c])) cs

/-- `self.format_string.format(**subst)`. -/
def pyFormat (su : Subst) (tmpl : String) : Except PyExc String :=
  runFmt su .lit tmpl.data

/-- `NameMangler.transform`: build `subst`, try `format` — `KeyError` and
`ValueError` fall back to the format string verbatim — then apply the
timestamp's `strftime` to the result.  Any other exception (e.g. the
`IndexError` of a positional field) propagates. -/
def transform (strf : Nat → String → String) (fd : FileData)
    (format_string : String) : Except PyExc String :=
  match pyFormat (mkSubst fd) format_string with
  | .ok result => .ok (strf fd.timestamp result)
  | .error .keyError => .ok (strf fd.timestamp format_string)
  | .error .valueError => .ok (strf fd.timestamp format_string)
  | .error e => .error e

def fdSample : FileData := ⟨"IMG_1234.JPG", some "Canon EOS 5D", 7⟩

/-- C9, counterexample to the claim as stated: the template `"{0}"` is a
malformed template for `format(**subst)` (a positional field with no
positional arguments), and the resulting `IndexError` is *not* caught by
`transform`'s `except (KeyError, ValueError)`, so `transform` raises
instead of returning a string. -/
theorem transform_cex :
    transform (fun _ s => s) fdSample "\x7b0\x7d" = .error .indexError := rfl

theorem lastNumberAux_no_digit (l : List Char)
    (hl : ∀ c ∈ l, c.isDigit = false) : lastNumberAux l [] [] = [] := by
  induction l with
  | nil => rfl
  | cons c cs ih =>
    have hc : c.isDigit = false := hl c (List.mem_cons_self _ _)
    unfold lastNumberAux
    rw [hc]
    simp only [Bool.false_eq_true, if_false, List.isEmpty_nil, if_true]
    exact ih (fun d hd => hl d (List.mem_cons_of_mem _ hd))

/-- C9 (amended): `transform` can only raise from a replacement field that
is positional (`IndexError`) or uses attribute/index access; an unknown
substitution key (`KeyError`) or an invalid format specifier (`ValueError`)
is caught and the format string is applied verbatim to `strftime`; the
`{number}` substitution is the last run of decimal digits of the file name
(empty when the name has none), and a `None` camera model substitutes as
`'unknown_camera'`, with spaces replaced by underscores. -/
theorem transform_safe (strf : Nat → String → String) (fd : FileData)
    (tmpl : String) :
    (∀ e, transform strf fd tmpl = .error e →
        (e = .indexError ∨ e = .attrError)) ∧
    ((pyFormat (mkSubst fd) tmpl = .error .keyError ∨
      pyFormat (mkSubst fd) tmpl = .error .valueError) →
      transform strf fd tmpl = .ok (strf fd.timestamp tmpl)) ∧
    ((mkSubst fd).number = lastNumber fd.name) ∧
    ((∀ c ∈ fd.name.data, c.isDigit = false) → (mkSubst fd).number = "") ∧
    (fd.camera = none → (mkSubst fd).camera = "unknown_camera") := by
  refine ⟨?_, ?_, rfl, ?_, ?_⟩
  · intro e he
    unfold transform at he
    cases hpf : pyFormat (mkSubst fd) tmpl with
    | ok v => rw [hpf] at he; cases he
    | error ex =>
      rw [hpf] at he
      cases ex with
      | keyError => cases he
      | valueError => cases he
      | indexError => cases he; exact Or.inl rfl
      | attrError => cases he; exact Or.inr rfl
  · intro h
    unfold transform
    rcases h with h | h <;> rw [h]
  · intro hnod
    show String.mk (lastNumberAux fd.name.data [] []) = ""
    rw [lastNumberAux_no_digit fd.name.data hnod]
  · intro h
    simp only [mkSubst, h]
    rfl

theorem transform_safe_witness :
    (pyFormat (mkSubst fdSample) "photo_\x7bfoo\x7d" = .error .keyError ∨
      pyFormat (mkSubst fdSample) "photo_\x7bfoo\x7d" = .error .valueError) ∧
    transform (fun _ s => s) fdSample "photo_\x7bfoo\x7d" =
      .ok "photo_\x7bfoo\x7d" :=
  ⟨Or.inl rfl,
   (transform_safe (fun _ s => s) fdSample "photo_\x7bfoo\x7d").2.1 (Or.inl rfl)⟩
